import Mathlib

/-!
Shallow embedding of the 2048 board/merge engine from `src/js/2048.js`
(classes `Point`, `Block`, `Board`, the four traversal strategies,
`IdenticalBlockMerger`, `GameBoardOperation` and `Game`).

JavaScript mutation is rendered as explicit state passing; code paths that
`throw` are rendered in the `Except Unit` monad; `Math.random()` draws are
rendered as an explicit index parameter.  JS `arr[i]` reads outside the
array yield `undefined`, rendered as `none`.
-/

deriving instance DecidableEq for Except

namespace TFE

/-- `Block`: an immutable tile value.  The source pools instances by value
(`Block.of`), an identity-caching optimisation with no observable value
semantics; here a block is just its value. -/
structure Block where
  value : Int
deriving DecidableEq, Repr

/-- `Block.of(value)` (src/js/2048.js): returns the block holding `value`. -/
def Block.of (value : Int) : Block := ⟨value⟩

/-- `Point`: an immutable (row, column) pair.  The source pools instances by
key `"row,column"` (`Point.of`); structural equality is the contract. -/
structure Point where
  row : Int
  column : Int
deriving DecidableEq, Repr

/-- `Point.of(row, column)`. -/
def Point.of (row column : Int) : Point := ⟨row, column⟩

/-- `Point.prototype.move(rowDistance, columnDistance)`. -/
def Point.move (p : Point) (rowDistance columnDistance : Int) : Point :=
  Point.of (p.row + rowDistance) (p.column + columnDistance)

/-- `Point.prototype.moveRow(distance)`. -/
def Point.moveRow (p : Point) (distance : Int) : Point :=
  p.move distance 0

/-- `Point.prototype.moveColumn(distance)`. -/
def Point.moveColumn (p : Point) (distance : Int) : Point :=
  p.move 0 distance

/-- The `Direction` enum. -/
inductive Direction where
  | up
  | down
  | left
  | right
deriving DecidableEq, Repr

/-- `Board`: `#rowCount`, `#columnCount`, the dense row-major `#blocks`
array (`undefined` = `none`) and the incrementally maintained
`#blockCount`. -/
structure Board where
  rowCount : Nat
  columnCount : Nat
  blocks : List (Option Block)
  blockCount : Int
deriving DecidableEq, Repr

/-- The `Board(rowCount, columnCount)` constructor: pushes
`rowCount*columnCount` `undefined` cells, `#blockCount = 0`. -/
def Board.new (rowCount columnCount : Nat) : Board :=
  { rowCount := rowCount
    columnCount := columnCount
    blocks := List.replicate (rowCount * columnCount) none
    blockCount := 0 }

/-- `Board.copy(other)`: fresh board with a shallow copy (`[...blocks]`) of
the cell array and the same `#blockCount`. -/
def Board.copy (b : Board) : Board :=
  { rowCount := b.rowCount
    columnCount := b.columnCount
    blocks := b.blocks
    blockCount := b.blockCount }

/-- `Board.prototype.getSize()`. -/
def Board.getSize (b : Board) : Nat := b.rowCount * b.columnCount

/-- `Board.prototype.isWithinBound(row, column)`. -/
def Board.isWithinBound (b : Board) (row column : Int) : Bool :=
  decide (0 ≤ row) && decide (row < (b.rowCount : Int)) &&
    decide (0 ≤ column) && decide (column < (b.columnCount : Int))

/-- `Board.prototype.#computeIndex(row, column)`: `row * columnCount + column`. -/
def Board.computeIndex (b : Board) (row column : Int) : Int :=
  row * (b.columnCount : Int) + column

/-- `Board.prototype.#getBlock(row, column)`: unchecked JS array read
`this.#blocks[index]`; a negative or too-large index yields `undefined`. -/
def Board.getBlock (b : Board) (row column : Int) : Option Block :=
  let index := b.computeIndex row column
  if index < 0 then none else (b.blocks[index.toNat]?).join

/-- `Board.prototype.blockAt(row, column)`: `#ensureValidIndices` throws on
out-of-bounds, then reads the cell. -/
def Board.blockAt (b : Board) (row column : Int) : Except Unit (Option Block) :=
  if b.isWithinBound row column then .ok (b.getBlock row column) else .error ()

/-- `Board.prototype.setBlockAt(row, column, block)`: bounds-checked write;
`#blockCount` is incremented when an empty cell becomes occupied and
decremented when an occupied cell becomes empty. -/
def Board.setBlockAt (b : Board) (row column : Int) (block : Option Block) :
    Except Unit Board := do
  let oldBlock ← b.blockAt row column
  let newCount :=
    if oldBlock.isNone && block.isSome then b.blockCount + 1
    else if oldBlock.isSome && block.isNone then b.blockCount - 1
    else b.blockCount
  pure { b with
    blocks := b.blocks.set (b.computeIndex row column).toNat block
    blockCount := newCount }

/-- `Board.prototype.removeBlockAt(row, column)`. -/
def Board.removeBlockAt (b : Board) (row column : Int) : Except Unit Board :=
  b.setBlockAt row column none

/-- `Board.prototype.clear()`: sets every cell (`i < getSize()`, which is
every index of the length-`getSize` array) to `undefined`, `#blockCount = 0`. -/
def Board.clear (b : Board) : Board :=
  { b with blocks := b.blocks.map (fun _ => none), blockCount := 0 }

/-- `Board.prototype.getEmptySlots()`: row-major scan collecting coordinates
of empty cells. -/
def Board.getEmptySlots (b : Board) : List Point :=
  (List.range b.rowCount).flatMap (fun (i : Nat) =>
    (List.range b.columnCount).filterMap (fun (j : Nat) =>
      if (b.getBlock (i : Int) (j : Int)).isNone then
        some (Point.of (i : Int) (j : Int))
      else none))

/-- `Board.prototype.getOccupiedSlots()`: row-major scan collecting
coordinates of occupied cells. -/
def Board.getOccupiedSlots (b : Board) : List Point :=
  (List.range b.rowCount).flatMap (fun (i : Nat) =>
    (List.range b.columnCount).filterMap (fun (j : Nat) =>
      if (b.getBlock (i : Int) (j : Int)).isSome then
        some (Point.of (i : Int) (j : Int))
      else none))

/-- The record produced by `Board.prototype.toJson()` /(parsed by)
`Board.fromJson`: `{rowCount, columnCount, values}` where `values[i]` is the
cell's numeric value or `null`/absent.  Record equality models equality of
the JSON strings. -/
structure BoardJson where
  rowCount : Nat
  columnCount : Nat
  values : List (Option Int)
deriving DecidableEq, Repr

/-- `Board.prototype.toJson()`: `values = blocks.map(b => b?.getValue())`. -/
def Board.toJson (b : Board) : BoardJson :=
  { rowCount := b.rowCount
    columnCount := b.columnCount
    values := b.blocks.map (fun block => block.map Block.value) }

/-- The body of the `Board.fromJson` loop at index `i`: when `values[i]` is
a number (`typeof value === 'number'`), write the block and increment
`#blockCount`; `null` or absent entries are skipped. -/
def fromJsonStep (values : List (Option Int)) (inst : Board) (i : Nat) : Board :=
  match values[i]? with
  | some (some value) =>
      { inst with
        blocks := inst.blocks.set i (some (Block.of value))
        blockCount := inst.blockCount + 1 }
  | _ => inst

/-- `Board.fromJson(json)`: builds a fresh `rowCount × columnCount` board,
then for each `i < getSize()` copies `values[i]` when it is a number.  The
length of `values` is never validated: missing entries read as `undefined`,
extra entries are ignored. -/
def Board.fromJson (data : BoardJson) : Board :=
  (List.range (data.rowCount * data.columnCount)).foldl (fromJsonStep data.values)
    (Board.new data.rowCount data.columnCount)

/-- `BlockMove`: `(from, to, merged)`.  `from` is a Lean keyword, so the
source's `from`/`to` fields are named `fromPoint`/`toPoint` here. -/
structure BlockMove where
  fromPoint : Point
  toPoint : Point
  merged : Bool
deriving DecidableEq, Repr

/-- `BoardTraversalEntry`: a visited cell plus the `isNewRound` flag. -/
structure BoardTraversalEntry where
  row : Nat
  column : Nat
  isNewRound : Bool
deriving DecidableEq, Repr

/-- `BoardTraversalEntry.prototype.point()`. -/
def BoardTraversalEntry.point (e : BoardTraversalEntry) : Point :=
  Point.of e.row e.column

/-- `BlockMerger`: the pluggable merge policy (`canMerge` / `merge`). -/
structure BlockMerger where
  canMerge : Block → Block → Bool
  merge : Block → Block → Block

/-- `IdenticalBlockMerger`: blocks merge iff their values are equal; the
merged block holds the sum of the two values. -/
def IdenticalBlockMerger : BlockMerger :=
  { canMerge := fun block1 block2 => block1.value == block2.value
    merge := fun block1 block2 => Block.of (block1.value + block2.value) }

/-- `BoardUpTraversalStrategy.prototype.traverse`: column by column, rows
from `0` upward; `isNewRound` on the first cell of each column. -/
def traverseUp (rowCount columnCount : Nat) : List BoardTraversalEntry :=
  (List.range columnCount).flatMap (fun column =>
    (List.range rowCount).map (fun row =>
      { row := row, column := column, isNewRound := row == 0 }))

/-- `BoardDownTraversalStrategy.prototype.traverse`: column by column, rows
from `rowCount - 1` downward. -/
def traverseDown (rowCount columnCount : Nat) : List BoardTraversalEntry :=
  (List.range columnCount).flatMap (fun column =>
    (List.range rowCount).map (fun k =>
      { row := rowCount - 1 - k, column := column, isNewRound := k == 0 }))

/-- `BoardLeftTraversalStrategy.prototype.traverse`: row by row, columns
from `0` upward. -/
def traverseLeft (rowCount columnCount : Nat) : List BoardTraversalEntry :=
  (List.range rowCount).flatMap (fun row =>
    (List.range columnCount).map (fun column =>
      { row := row, column := column, isNewRound := column == 0 }))

/-- `BoardRightTraversalStrategy.prototype.traverse`: row by row, columns
from `columnCount - 1` downward. -/
def traverseRight (rowCount columnCount : Nat) : List BoardTraversalEntry :=
  (List.range rowCount).flatMap (fun row =>
    (List.range columnCount).map (fun k =>
      { row := row, column := columnCount - 1 - k, isNewRound := k == 0 }))

/-- The traversal bound per direction by
`CachingBoardTraversalStrategyFactory.create`. -/
def Direction.traverse : Direction → Nat → Nat → List BoardTraversalEntry
  | .up => traverseUp
  | .down => traverseDown
  | .left => traverseLeft
  | .right => traverseRight

/-- The `PointMover` bound per strategy: UP `moveRow(-offset)`, DOWN
`moveRow(offset)`, LEFT `moveColumn(-offset)`, RIGHT `moveColumn(offset)`. -/
def Direction.mover : Direction → Point → Int → Point
  | .up => fun point offset => point.moveRow (-offset)
  | .down => fun point offset => point.moveRow offset
  | .left => fun point offset => point.moveColumn (-offset)
  | .right => fun point offset => point.moveColumn offset

/-- The per-line state of `GameBoardOperation`: `#emptyCount` and
`#isDstMerged`. -/
structure OperationState where
  emptyCount : Nat
  isDstMerged : Bool
deriving DecidableEq, Repr

/-- `GameBoardOperation.prototype.prepare()`: resets `#emptyCount` and
`#isDstMerged`. -/
def operationPrepare : OperationState := { emptyCount := 0, isDstMerged := false }

/-- `GameBoardOperation.prototype.#moveBlock(board, from, to)`: relocate the
block at `from` onto an empty `to`, or merge it into an occupied `to` when
the merger allows and `to`'s line has not merged yet; a blocked,
non-mergeable destination fails (`null`).  Reading `canMerge` on an
`undefined` source block is a JS `TypeError` (`.error`), unreachable from
`operate`. -/
def moveBlock (merger : BlockMerger) (board : Board) (pfrom pto : Point)
    (st : OperationState) :
    Except Unit (Option BlockMove × Board × OperationState) := do
  let currentBlock ← board.blockAt pfrom.row pfrom.column
  let dstBlock ← board.blockAt pto.row pto.column
  match dstBlock with
  | none => do
      let b1 ← board.setBlockAt pto.row pto.column currentBlock
      let b2 ← b1.removeBlockAt pfrom.row pfrom.column
      pure (some { fromPoint := pfrom, toPoint := pto, merged := false }, b2,
        { st with isDstMerged := false })
  | some dst =>
      match currentBlock with
      | none => .error ()
      | some current =>
          if !(merger.canMerge current dst) || st.isDstMerged then
            pure (none, board, st)
          else do
            let mergedBlock := merger.merge current dst
            let b1 ← board.setBlockAt pto.row pto.column (some mergedBlock)
            let b2 ← b1.removeBlockAt pfrom.row pfrom.column
            pure (some { fromPoint := pfrom, toPoint := pto, merged := true }, b2,
              { emptyCount := st.emptyCount + 1, isDstMerged := true })

/-- The offset-trial loop of `GameBoardOperation.prototype.operate`: offsets
from `1 + #emptyCount` down to `1`, skipping out-of-bounds destinations,
stopping at the first offset whose `#moveBlock` succeeds. -/
def operateLoop (merger : BlockMerger) (mover : Point → Int → Point)
    (board : Board) (point : Point) (st : OperationState) :
    Nat → Except Unit (Option BlockMove × Board × OperationState)
  | 0 => pure (none, board, st)
  | k + 1 => do
      let dstPoint := mover point ((k : Int) + 1)
      if board.isWithinBound dstPoint.row dstPoint.column then do
        let (move, b1, st1) ← moveBlock merger board point dstPoint st
        match move with
        | some mv => pure (some mv, b1, st1)
        | none => operateLoop merger mover b1 point st1 k
      else
        operateLoop merger mover board point st k

/-- `GameBoardOperation.prototype.operate(board, point, isNewRound, mover)`:
reset per-line state on a new round; out-of-bounds points and empty cells
produce no move (empties increment `#emptyCount`); an occupied cell runs the
offset-trial loop. -/
def operate (merger : BlockMerger) (mover : Point → Int → Point)
    (board : Board) (point : Point) (isNewRound : Bool) (st : OperationState) :
    Except Unit (Option BlockMove × Board × OperationState) :=
  let st := if isNewRound then { emptyCount := 0, isDstMerged := false } else st
  if !(board.isWithinBound point.row point.column) then
    pure (none, board, st)
  else do
    let blk ← board.blockAt point.row point.column
    match blk with
    | none => pure (none, board, { st with emptyCount := st.emptyCount + 1 })
    | some _ => operateLoop merger mover board point st (1 + st.emptyCount)

/-- The loop of `AbstractBoardTraversalStrategy.prototype.execute`: runs the
operation on every traversal entry, collecting non-null moves (keyed by the
visited point, in insertion order, modelling the JS `Map`); with
`earlyTerminated` it returns at the first collected move. -/
def executeLoop (merger : BlockMerger) (mover : Point → Int → Point)
    (entries : List BoardTraversalEntry) (board : Board) (st : OperationState)
    (moves : List (Point × BlockMove)) (earlyTerminated : Bool) :
    Except Unit (List (Point × BlockMove) × Board) :=
  match entries with
  | [] => pure (moves, board)
  | entry :: rest => do
      let point := entry.point
      let (move, b1, st1) ← operate merger mover board point entry.isNewRound st
      match move with
      | some mv =>
          let moves1 := moves ++ [(point, mv)]
          if earlyTerminated then pure (moves1, b1)
          else executeLoop merger mover rest b1 st1 moves1 earlyTerminated
      | none => executeLoop merger mover rest b1 st1 moves earlyTerminated

/-- `AbstractBoardTraversalStrategy.prototype.execute(board, operation,
earlyTerminated)` for the strategy of `direction`, with the operation
freshly `prepare()`d (as both `Game.moveBlocks` and `Game.tryMoveBlocks`
do). -/
def execute (merger : BlockMerger) (direction : Direction) (board : Board)
    (earlyTerminated : Bool) : Except Unit (List (Point × BlockMove) × Board) :=
  executeLoop merger (direction.mover)
    (direction.traverse board.rowCount board.columnCount)
    board operationPrepare [] earlyTerminated

/-- `Game`: the orchestrator.  Its only state relevant to the engine is
`#board`; the operation is re-`prepare()`d before every traversal, and the
game constructed by the UI uses `IdenticalBlockMerger`. -/
structure Game where
  board : Board
deriving DecidableEq, Repr

/-- `Game.prototype.moveBlocks(direction)`: prepare the operation, run the
strategy on the live board (no early termination), return the move map; the
board mutation is returned alongside. -/
def Game.moveBlocks (g : Game) (direction : Direction) :
    Except Unit (List (Point × BlockMove) × Game) := do
  let (moves, board') ← execute IdenticalBlockMerger direction g.board false
  pure (moves, { board := board' })

/-- `Game.prototype.tryMoveBlocks(direction)`: prepare the operation, run
the strategy with `earlyTerminated = true` on `Board.copy(this.#board)`;
the live board field is untouched.  Returns `moves.size !== 0`. -/
def Game.tryMoveBlocks (g : Game) (direction : Direction) :
    Except Unit (Bool × Game) := do
  let tempBoard := Board.copy g.board
  let (moves, _) ← execute IdenticalBlockMerger direction tempBoard true
  pure (moves.length != 0, g)

/-- `Game.prototype.isSpawnable()`: `#blockCount !== getSize()`. -/
def Game.isSpawnable (g : Game) : Bool :=
  g.board.blockCount != (g.board.getSize : Int)

/-- `randomItem(items)` (src/js/utils.js): `undefined` on an empty list,
otherwise `items[floor(random * items.length)]`; the drawn index
`floor(random * items.length)` is the explicit parameter `r`. -/
def randomItem (items : List Point) (r : Nat) : Option Point :=
  if items.length = 0 then none else items[r]?

/-- `Game.prototype.spawnBlock(block)`: `undefined` when the board is full
(`!isSpawnable()`) or `block` is falsy; otherwise writes `block` at a random
empty slot and returns the slot. -/
def Game.spawnBlock (g : Game) (block : Option Block) (r : Nat) :
    Except Unit (Option Point × Game) :=
  if !g.isSpawnable || block.isNone then pure (none, g)
  else
    match randomItem g.board.getEmptySlots r with
    | none => pure (none, g)
    | some slot => do
        let b1 ← g.board.setBlockAt slot.row slot.column block
        pure (some slot, { board := b1 })

/-- `Game.prototype.clearBoard()`. -/
def Game.clearBoard (g : Game) : Game :=
  { board := g.board.clear }

/-! ### Derived notions used by the verification -/

/-- Number of occupied cells in a cell array (full enumeration of the
grid's dense row-major storage). -/
def countBlocks (blocks : List (Option Block)) : Nat :=
  (blocks.filter Option.isSome).length

/-- Value of a cell, counting an empty cell as `0`. -/
def cellValue : Option Block → Int
  | none => 0
  | some block => block.value

/-- Total of all block values on the board. -/
def Board.sumValues (b : Board) : Int :=
  (b.blocks.map cellValue).sum

/-- The representation invariant every board reachable through the `Board`
API satisfies: the dense cell array has exactly `rowCount * columnCount`
entries and `#blockCount` agrees with a full enumeration. -/
def Board.Invariant (b : Board) : Prop :=
  b.blocks.length = b.rowCount * b.columnCount ∧
    b.blockCount = (countBlocks b.blocks : Int)

instance (b : Board) : Decidable b.Invariant := by
  unfold Board.Invariant
  infer_instance

/-- Number of `merged = true` records in a move map. -/
def mergedCount (moves : List (Point × BlockMove)) : Nat :=
  (moves.filter (fun m => m.2.merged)).length

/-- Occupancy indicator of a cell, as an integer. -/
def blockIndicator : Option Block → Int
  | none => 0
  | some _ => 1

/-- `1` for a `merged = true` move record, `0` otherwise. -/
def mergedFlag : Option BlockMove → Int
  | none => 0
  | some mv => if mv.merged then 1 else 0

/-- The cell `Board.fromJson` decodes from entry `i` of `values`: a block
when the entry is present and a number, empty otherwise. -/
def decodeCell (values : List (Option Int)) (i : Nat) : Option Block :=
  match values[i]? with
  | some (some value) => some (Block.of value)
  | _ => none

/-- Boards reachable from a freshly constructed board by the `Board`
operations named in the spec (`setBlockAt`, `removeBlockAt`, `clear`,
`fromJson`, `copy`). -/
inductive Board.Reachable : Board → Prop
  | new (rowCount columnCount : Nat) : Board.Reachable (Board.new rowCount columnCount)
  | set {b : Board} (row column : Int) (block : Option Block) {b' : Board} :
      Board.Reachable b → b.setBlockAt row column block = .ok b' → Board.Reachable b'
  | remove {b : Board} (row column : Int) {b' : Board} :
      Board.Reachable b → b.removeBlockAt row column = .ok b' → Board.Reachable b'
  | clear {b : Board} : Board.Reachable b → Board.Reachable b.clear
  | fromJson (data : BoardJson) : Board.Reachable (Board.fromJson data)
  | copy {b : Board} : Board.Reachable b → Board.Reachable (Board.copy b)

/-! ### Concrete boards used as test vectors -/

/-- 1×4 row `[2,2,2,2]`. -/
def row2222 : Board :=
  { rowCount := 1, columnCount := 4
    blocks := [some (Block.of 2), some (Block.of 2), some (Block.of 2), some (Block.of 2)]
    blockCount := 4 }

/-- 1×4 row `[2,_,4,_]`. -/
def row2x4x : Board :=
  { rowCount := 1, columnCount := 4
    blocks := [some (Block.of 2), none, some (Block.of 4), none]
    blockCount := 2 }

/-- 1×4 row `[2,4,4,_]`. -/
def row244x : Board :=
  { rowCount := 1, columnCount := 4
    blocks := [some (Block.of 2), some (Block.of 4), some (Block.of 4), none]
    blockCount := 3 }

/-- 1×4 row `[2,_,_,4]`. -/
def row2xx4 : Board :=
  { rowCount := 1, columnCount := 4
    blocks := [some (Block.of 2), none, none, some (Block.of 4)]
    blockCount := 2 }

/-- 1×4 row `[_,_,2,4]` (packed against the right edge). -/
def rowxx24 : Board :=
  { rowCount := 1, columnCount := 4
    blocks := [none, none, some (Block.of 2), some (Block.of 4)]
    blockCount := 2 }

/-- 1×2 row `[2,2]`. -/
def row22 : Board :=
  { rowCount := 1, columnCount := 2
    blocks := [some (Block.of 2), some (Block.of 2)]
    blockCount := 2 }

/-- 1×1 board holding a single `2`. -/
def oneCell : Board :=
  { rowCount := 1, columnCount := 1
    blocks := [some (Block.of 2)]
    blockCount := 1 }

/-- The move map `moveBlocks(LEFT)` actually produces on `row2222`. -/
def row2222Moves : List (Point × BlockMove) :=
  [(Point.of 0 1, { fromPoint := Point.of 0 1, toPoint := Point.of 0 0, merged := true }),
   (Point.of 0 2, { fromPoint := Point.of 0 2, toPoint := Point.of 0 1, merged := false }),
   (Point.of 0 3, { fromPoint := Point.of 0 3, toPoint := Point.of 0 1, merged := true })]

/-! ### Cell-array lemmas -/

/-- Summing `f` over a cell array after overwriting index `i`. -/
theorem sum_map_set (f : Option Block → Int) (l : List (Option Block)) :
    ∀ (i : Nat) (x y : Option Block), l[i]? = some y →
      ((l.set i x).map f).sum = (l.map f).sum + f x - f y := by
  induction l with
  | nil => intro i x y h; simp at h
  | cons a l ih =>
    intro i x y h
    cases i with
    | zero =>
      simp only [List.getElem?_cons_zero, Option.some.injEq] at h
      subst h
      simp only [List.set_cons_zero, List.map_cons, List.sum_cons]
      ring
    | succ i =>
      simp only [List.getElem?_cons_succ] at h
      simp only [List.set_cons_succ, List.map_cons, List.sum_cons, ih i x y h]
      ring

/-- `countBlocks` as an integer-valued sum of occupancy indicators. -/
theorem countBlocks_cast (l : List (Option Block)) :
    (countBlocks l : Int) = (l.map blockIndicator).sum := by
  induction l with
  | nil => simp [countBlocks]
  | cons a l ih =>
    cases a <;>
      simp [countBlocks, List.filter_cons, blockIndicator, Option.isSome] at * <;>
      omega

/-- Effect of overwriting index `i` on the occupancy count. -/
theorem countBlocks_set (l : List (Option Block)) (i : Nat) (x y : Option Block)
    (h : l[i]? = some y) :
    (countBlocks (l.set i x) : Int) = countBlocks l + blockIndicator x - blockIndicator y := by
  rw [countBlocks_cast, countBlocks_cast, sum_map_set blockIndicator l i x y h]

/-! ### Bounds lemmas -/

/-- Unfolding `isWithinBound` into its four comparisons. -/
theorem isWithinBound_iff {b : Board} {row column : Int} :
    b.isWithinBound row column = true ↔
      0 ≤ row ∧ row < (b.rowCount : Int) ∧ 0 ≤ column ∧ column < (b.columnCount : Int) := by
  simp [Board.isWithinBound, and_assoc]

/-- An in-bounds coordinate has a nonnegative row-major index. -/
theorem computeIndex_nonneg {b : Board} {row column : Int}
    (h : b.isWithinBound row column = true) : 0 ≤ b.computeIndex row column := by
  rw [isWithinBound_iff] at h
  obtain ⟨h1, _, h3, _⟩ := h
  exact add_nonneg (mul_nonneg h1 (by positivity)) h3

/-- An in-bounds coordinate's row-major index is below `rowCount * columnCount`. -/
theorem computeIndex_lt {b : Board} {row column : Int}
    (h : b.isWithinBound row column = true) :
    b.computeIndex row column < ((b.rowCount * b.columnCount : Nat) : Int) := by
  rw [isWithinBound_iff] at h
  obtain ⟨h1, h2, h3, h4⟩ := h
  have hcc : (0 : Int) ≤ b.columnCount := by positivity
  have h5 : row + 1 ≤ (b.rowCount : Int) := by omega
  have h6 := mul_le_mul_of_nonneg_right h5 hcc
  unfold Board.computeIndex
  push_cast
  nlinarith

/-- Under the length invariant, an in-bounds coordinate indexes inside the
cell array. -/
theorem toNat_index_lt {b : Board} (hlen : b.blocks.length = b.rowCount * b.columnCount)
    {row column : Int} (h : b.isWithinBound row column = true) :
    (b.computeIndex row column).toNat < b.blocks.length := by
  have h1 := computeIndex_nonneg h
  have h2 := computeIndex_lt h
  omega

/-- Under the length invariant, the cell an in-bounds `#getBlock` reads is
entry `computeIndex.toNat` of the cell array. -/
theorem getElem?_of_inBounds {b : Board}
    (hlen : b.blocks.length = b.rowCount * b.columnCount) {row column : Int}
    (h : b.isWithinBound row column = true) :
    b.blocks[(b.computeIndex row column).toNat]? = some (b.getBlock row column) := by
  have h0 := computeIndex_nonneg h
  have hlt := toNat_index_lt hlen h
  unfold Board.getBlock
  rw [if_neg (by omega)]
  rw [List.getElem?_eq_getElem hlt]
  simp [Option.join]

/-- The row-major index is injective on in-bounds coordinates. -/
theorem computeIndex_inj {b : Board} {p q : Point}
    (hp : b.isWithinBound p.row p.column = true)
    (hq : b.isWithinBound q.row q.column = true) (hne : p ≠ q) :
    (b.computeIndex p.row p.column).toNat ≠ (b.computeIndex q.row q.column).toNat := by
  intro hEq
  have hp0 := computeIndex_nonneg hp
  have hq0 := computeIndex_nonneg hq
  have hI : b.computeIndex p.row p.column = b.computeIndex q.row q.column := by omega
  rw [isWithinBound_iff] at hp hq
  obtain ⟨hp1, hp2, hp3, hp4⟩ := hp
  obtain ⟨hq1, hq2, hq3, hq4⟩ := hq
  unfold Board.computeIndex at hI
  have hrow : p.row = q.row := by
    rcases lt_trichotomy p.row q.row with hlt | heq | hgt
    · have h5 : p.row + 1 ≤ q.row := by omega
      have h6 := mul_le_mul_of_nonneg_right h5 (show (0:Int) ≤ b.columnCount by positivity)
      nlinarith
    · exact heq
    · have h5 : q.row + 1 ≤ p.row := by omega
      have h6 := mul_le_mul_of_nonneg_right h5 (show (0:Int) ≤ b.columnCount by positivity)
      nlinarith
  have hcol : p.column = q.column := by
    rw [hrow] at hI
    omega
  exact hne (by cases p; cases q; simp_all)

/-- A strategy's point mover at a positive offset never returns its input. -/
theorem mover_ne (d : Direction) (p : Point) (o : Int) (ho : 0 < o) :
    d.mover p o ≠ p := by
  obtain ⟨r, c⟩ := p
  cases d <;>
    simp [Direction.mover, Point.moveRow, Point.moveColumn, Point.move, Point.of,
      Point.mk.injEq] <;>
    omega

/-! ### `blockAt` / `setBlockAt` lemmas -/

/-- In bounds, `blockAt` returns the cell. -/
theorem blockAt_of_inBounds {b : Board} {row column : Int}
    (h : b.isWithinBound row column = true) :
    b.blockAt row column = .ok (b.getBlock row column) := by
  simp [Board.blockAt, h]

/-- Out of bounds, `blockAt` throws. -/
theorem blockAt_of_oob {b : Board} {row column : Int}
    (h : b.isWithinBound row column = false) :
    b.blockAt row column = .error () := by
  simp [Board.blockAt, h]

/-- Out of bounds, `setBlockAt` throws. -/
theorem setBlockAt_of_oob {b : Board} {row column : Int} (block : Option Block)
    (h : b.isWithinBound row column = false) :
    b.setBlockAt row column block = .error () := by
  simp [Board.setBlockAt, blockAt_of_oob h, Bind.bind, Except.bind]

/-- In bounds, `setBlockAt` succeeds, overwriting the indexed cell; the
`#blockCount` update (`+1` empty→occupied, `-1` occupied→empty, else
unchanged) is the indicator difference. -/
theorem setBlockAt_of_inBounds {b : Board} {row column : Int} (block : Option Block)
    (h : b.isWithinBound row column = true) :
    b.setBlockAt row column block = .ok
      { b with
        blocks := b.blocks.set (b.computeIndex row column).toNat block
        blockCount :=
          b.blockCount + blockIndicator block - blockIndicator (b.getBlock row column) } := by
  rw [Board.setBlockAt, blockAt_of_inBounds h]
  show Except.ok _ = _
  cases hold : b.getBlock row column <;> cases block <;>
    simp [Bind.bind, Except.bind, pure, Except.pure, blockIndicator, hold]

/-- A successful `setBlockAt` implies the coordinate was in bounds. -/
theorem setBlockAt_ok_inBounds {b b' : Board} {row column : Int} {block : Option Block}
    (h : b.setBlockAt row column block = .ok b') :
    b.isWithinBound row column = true := by
  by_cases hb : b.isWithinBound row column = true
  · exact hb
  · rw [setBlockAt_of_oob block (by simpa using hb)] at h
    exact absurd h (by simp)

/-- A successful `setBlockAt` preserves the representation invariant, keeps
the dimensions, and shifts sum and count by the difference between the new
and old cell. -/
theorem setBlockAt_ok_spec {b b' : Board} {row column : Int} {block : Option Block}
    (hInv : b.Invariant) (h : b.setBlockAt row column block = .ok b') :
    b'.Invariant ∧ b'.rowCount = b.rowCount ∧ b'.columnCount = b.columnCount ∧
      b'.blocks = b.blocks.set (b.computeIndex row column).toNat block ∧
      b'.blockCount = b.blockCount + blockIndicator block -
        blockIndicator (b.getBlock row column) ∧
      b'.sumValues = b.sumValues + cellValue block - cellValue (b.getBlock row column) := by
  obtain ⟨hlen, hcount⟩ := hInv
  have hin := setBlockAt_ok_inBounds h
  rw [setBlockAt_of_inBounds block hin] at h
  obtain rfl : _ = b' := congrArg (fun e => match e with | Except.ok v => v | _ => b) h
  have hget := getElem?_of_inBounds hlen hin
  refine ⟨⟨?_, ?_⟩, rfl, rfl, rfl, rfl, ?_⟩
  · simpa using hlen
  · show b.blockCount + blockIndicator block - blockIndicator (b.getBlock row column) =
      (countBlocks (b.blocks.set (b.computeIndex row column).toNat block) : Int)
    rw [countBlocks_set _ _ block _ hget, ← hcount]
  · show (List.map cellValue (b.blocks.set (b.computeIndex row column).toNat block)).sum =
      b.sumValues + cellValue block - cellValue (b.getBlock row column)
    rw [sum_map_set cellValue _ _ block _ hget]
    rfl

/-- Bounds checking depends only on the dimensions. -/
theorem isWithinBound_congr {b b2 : Board} (hr : b2.rowCount = b.rowCount)
    (hc : b2.columnCount = b.columnCount) (row column : Int) :
    b2.isWithinBound row column = b.isWithinBound row column := by
  unfold Board.isWithinBound
  rw [hr, hc]

/-- The row-major index depends only on the column count. -/
theorem computeIndex_congr {b b2 : Board} (hc : b2.columnCount = b.columnCount)
    (row column : Int) : b2.computeIndex row column = b.computeIndex row column := by
  unfold Board.computeIndex
  rw [hc]

/-- Reading a coordinate whose index differs from the overwritten one is
unchanged. -/
theorem getBlock_set_other {b b2 : Board} (hc : b2.columnCount = b.columnCount)
    {j : Nat} {x : Option Block} (hb : b2.blocks = b.blocks.set j x)
    {row column : Int} (hj : (b.computeIndex row column).toNat ≠ j) :
    b2.getBlock row column = b.getBlock row column := by
  unfold Board.getBlock
  dsimp only
  rw [computeIndex_congr hc, hb, List.getElem?_set_ne (Ne.symm hj)]

/-! ### The merge state machine: `#moveBlock`, the offset loop, `operate` -/

/-- Specification of `#moveBlock` on an occupied in-bounds source and an
in-bounds destination with a different index: it never throws, preserves
the invariant, the dimensions and the total value, and decreases
`#blockCount` by one exactly on a merge; a failed attempt changes
nothing. -/
theorem moveBlock_spec (m : BlockMerger)
    (hm : ∀ x y : Block, (m.merge x y).value = x.value + y.value)
    {board : Board} (hInv : board.Invariant) {pf pt : Point}
    (hf : board.isWithinBound pf.row pf.column = true)
    (ht : board.isWithinBound pt.row pt.column = true)
    (hne : pf ≠ pt)
    {cur : Block} (hocc : board.getBlock pf.row pf.column = some cur)
    (st : OperationState) :
    ∃ mv b' st', moveBlock m board pf pt st = .ok (mv, b', st') ∧
      b'.Invariant ∧ b'.rowCount = board.rowCount ∧ b'.columnCount = board.columnCount ∧
      b'.sumValues = board.sumValues ∧
      b'.blockCount = board.blockCount - mergedFlag mv ∧
      (mv = none → b' = board ∧ st' = st) := by
  have hidx := computeIndex_inj hf ht hne
  unfold moveBlock
  rw [blockAt_of_inBounds hf, blockAt_of_inBounds ht, hocc]
  cases hdst : board.getBlock pt.row pt.column with
  | none =>
    -- destination empty: relocate
    have hset1 := setBlockAt_of_inBounds (b := board) (some cur) ht
    have hspec1 := setBlockAt_ok_spec hInv hset1
    set b1 : Board :=
      { board with
        blocks := board.blocks.set (board.computeIndex pt.row pt.column).toNat (some cur)
        blockCount := board.blockCount + blockIndicator (some cur) -
          blockIndicator (board.getBlock pt.row pt.column) } with hb1
    obtain ⟨hInv1, hr1, hc1, hbl1, hcount1, hsum1⟩ := hspec1
    have hfb1 : b1.isWithinBound pf.row pf.column = true := by
      rw [isWithinBound_congr hr1 hc1]; exact hf
    have hget1 : b1.getBlock pf.row pf.column = some cur := by
      rw [getBlock_set_other hc1 hbl1 hidx]; exact hocc
    have hset2 := setBlockAt_of_inBounds (b := b1) none hfb1
    have hspec2 := setBlockAt_ok_spec hInv1 hset2
    obtain ⟨hInv2, hr2, hc2, hbl2, hcount2, hsum2⟩ := hspec2
    refine ⟨some { fromPoint := pf, toPoint := pt, merged := false },
      { rowCount := b1.rowCount, columnCount := b1.columnCount
        blocks := b1.blocks.set (b1.computeIndex pf.row pf.column).toNat none
        blockCount := b1.blockCount + blockIndicator none -
          blockIndicator (b1.getBlock pf.row pf.column) },
      { st with isDstMerged := false }, ?_, hInv2, ?_, ?_, ?_, ?_, ?_⟩
    · simp only [Bind.bind, Except.bind, Board.removeBlockAt, hset1, hset2, hdst]
      rfl
    · rw [hr2, hr1]
    · rw [hc2, hc1]
    · rw [hsum2, hsum1, hget1, hdst]
      simp [cellValue]
    · rw [hcount2, hcount1, hget1, hdst]
      simp [blockIndicator, mergedFlag]
    · simp
  | some dst =>
    by_cases hcm : (!(m.canMerge cur dst) || st.isDstMerged) = true
    · refine ⟨none, board, st, ?_, hInv, rfl, rfl, rfl, by simp [mergedFlag], fun _ => ⟨rfl, rfl⟩⟩
      simp only [Bind.bind, Except.bind, hcm, if_true, hdst]
      rfl
    · -- merge
      have hset1 := setBlockAt_of_inBounds (b := board) (some (m.merge cur dst)) ht
      have hspec1 := setBlockAt_ok_spec hInv hset1
      set b1 : Board :=
        { board with
          blocks := board.blocks.set (board.computeIndex pt.row pt.column).toNat
            (some (m.merge cur dst))
          blockCount := board.blockCount + blockIndicator (some (m.merge cur dst)) -
            blockIndicator (board.getBlock pt.row pt.column) } with hb1
      obtain ⟨hInv1, hr1, hc1, hbl1, hcount1, hsum1⟩ := hspec1
      have hfb1 : b1.isWithinBound pf.row pf.column = true := by
        rw [isWithinBound_congr hr1 hc1]; exact hf
      have hget1 : b1.getBlock pf.row pf.column = some cur := by
        rw [getBlock_set_other hc1 hbl1 hidx]; exact hocc
      have hset2 := setBlockAt_of_inBounds (b := b1) none hfb1
      have hspec2 := setBlockAt_ok_spec hInv1 hset2
      obtain ⟨hInv2, hr2, hc2, hbl2, hcount2, hsum2⟩ := hspec2
      refine ⟨some { fromPoint := pf, toPoint := pt, merged := true },
        { rowCount := b1.rowCount, columnCount := b1.columnCount
          blocks := b1.blocks.set (b1.computeIndex pf.row pf.column).toNat none
          blockCount := b1.blockCount + blockIndicator none -
            blockIndicator (b1.getBlock pf.row pf.column) },
        { emptyCount := st.emptyCount + 1, isDstMerged := true }, ?_, hInv2, ?_, ?_, ?_, ?_, ?_⟩
      · simp only [Bind.bind, Except.bind, Board.removeBlockAt, hset1, hset2, hdst,
          hcm, if_false, Bool.false_eq_true]
        rfl
      · rw [hr2, hr1]
      · rw [hc2, hc1]
      · rw [hsum2, hsum1, hget1, hdst]
        simp only [cellValue, hm cur dst]
        ring
      · rw [hcount2, hcount1, hget1, hdst]
        simp [blockIndicator, mergedFlag]
      · simp

/-- Counting merges in a `::`-extended move map. -/
theorem mergedCount_cons (pm : Point × BlockMove) (l : List (Point × BlockMove)) :
    (mergedCount (pm :: l) : Int) = mergedFlag (some pm.2) + mergedCount l := by
  cases hm : pm.2.merged <;>
    simp [mergedCount, List.filter_cons, hm, mergedFlag]
  omega

/-- Specification of the offset-trial loop on an occupied in-bounds source:
it never throws, preserves invariant, dimensions and total value, decreases
`#blockCount` by one exactly on a merge, and changes nothing when no offset
succeeds. -/
theorem operateLoop_spec (m : BlockMerger)
    (hm : ∀ x y : Block, (m.merge x y).value = x.value + y.value)
    (mover : Point → Int → Point)
    (hmv : ∀ (o : Int), 0 < o → ∀ q : Point, mover q o ≠ q)
    {board : Board} (hInv : board.Invariant) {p : Point}
    (hf : board.isWithinBound p.row p.column = true)
    {cur : Block} (hocc : board.getBlock p.row p.column = some cur)
    (st : OperationState) (k : Nat) :
    ∃ mv b' st', operateLoop m mover board p st k = .ok (mv, b', st') ∧
      b'.Invariant ∧ b'.rowCount = board.rowCount ∧ b'.columnCount = board.columnCount ∧
      b'.sumValues = board.sumValues ∧
      b'.blockCount = board.blockCount - mergedFlag mv ∧
      (mv = none → b' = board ∧ st' = st) := by
  induction k with
  | zero =>
    exact ⟨none, board, st, rfl, hInv, rfl, rfl, rfl, by simp [mergedFlag],
      fun _ => ⟨rfl, rfl⟩⟩
  | succ k ih =>
    unfold operateLoop
    cases hin : board.isWithinBound (mover p ((k : Int) + 1)).row
        (mover p ((k : Int) + 1)).column with
    | false =>
      simp only [hin, Bool.false_eq_true, if_false]
      exact ih
    | true =>
      have hne : p ≠ mover p ((k : Int) + 1) :=
        Ne.symm (hmv ((k : Int) + 1) (by positivity) p)
      obtain ⟨mv1, b1, st1, heq, hInv1, hr1, hc1, hsum1, hcount1, hnone1⟩ :=
        moveBlock_spec m hm hInv hf hin hne hocc st
      simp only [hin, if_true, Bind.bind, Except.bind, heq]
      cases mv1 with
      | some x =>
        exact ⟨some x, b1, st1, rfl, hInv1, hr1, hc1, hsum1, hcount1, by simp⟩
      | none =>
        obtain ⟨rfl, rfl⟩ := hnone1 rfl
        exact ih

/-- Specification of `operate`: it never throws on any cell, preserves
invariant, dimensions and total value, and decreases `#blockCount` by one
exactly when it reports a merge. -/
theorem operate_spec (m : BlockMerger)
    (hm : ∀ x y : Block, (m.merge x y).value = x.value + y.value)
    (mover : Point → Int → Point)
    (hmv : ∀ (o : Int), 0 < o → ∀ q : Point, mover q o ≠ q)
    {board : Board} (hInv : board.Invariant) (p : Point) (isNewRound : Bool)
    (st : OperationState) :
    ∃ mv b' st', operate m mover board p isNewRound st = .ok (mv, b', st') ∧
      b'.Invariant ∧ b'.rowCount = board.rowCount ∧ b'.columnCount = board.columnCount ∧
      b'.sumValues = board.sumValues ∧
      b'.blockCount = board.blockCount - mergedFlag mv := by
  unfold operate
  cases hin : board.isWithinBound p.row p.column with
  | false =>
    refine ⟨none, board,
      (if isNewRound then { emptyCount := 0, isDstMerged := false } else st),
      ?_, hInv, rfl, rfl, rfl, by simp [mergedFlag]⟩
    simp [hin, pure, Except.pure]
  | true =>
    simp only [hin, Bool.not_true, Bool.false_eq_true, if_false,
      blockAt_of_inBounds hin, Bind.bind, Except.bind]
    cases hcell : board.getBlock p.row p.column with
    | none =>
      refine ⟨none, board, _, rfl, hInv, rfl, rfl, rfl, by simp [mergedFlag]⟩
    | some cur =>
      obtain ⟨mv, b', st', heq, hInv', hr', hc', hsum', hcount', _⟩ :=
        operateLoop_spec m hm mover hmv hInv hin hcell
          (if isNewRound then { emptyCount := 0, isDstMerged := false } else st)
          (1 + (if isNewRound then
            ({ emptyCount := 0, isDstMerged := false } : OperationState)
            else st).emptyCount)
      exact ⟨mv, b', st', heq, hInv', hr', hc', hsum', hcount'⟩

/-- Specification of the traversal loop: it never throws, appends its new
records to the accumulator in order, preserves invariant and total value,
and decreases `#blockCount` by the number of new `merged = true` records. -/
theorem executeLoop_spec (m : BlockMerger)
    (hm : ∀ x y : Block, (m.merge x y).value = x.value + y.value)
    (mover : Point → Int → Point)
    (hmv : ∀ (o : Int), 0 < o → ∀ q : Point, mover q o ≠ q)
    (entries : List BoardTraversalEntry) :
    ∀ (board : Board), board.Invariant →
      ∀ (st : OperationState) (moves : List (Point × BlockMove)) (early : Bool),
    ∃ newMoves b',
      executeLoop m mover entries board st moves early = .ok (moves ++ newMoves, b') ∧
      b'.Invariant ∧ b'.sumValues = board.sumValues ∧
      b'.blockCount = board.blockCount - (mergedCount newMoves : Int) := by
  induction entries with
  | nil =>
    intro board hInv st moves early
    refine ⟨[], board, ?_, hInv, rfl, by simp [mergedCount]⟩
    simp only [executeLoop, List.append_nil]
    rfl
  | cons e rest ih =>
    intro board hInv st moves early
    obtain ⟨mv, b1, st1, heq, hInv1, _, _, hsum1, hcount1⟩ :=
      operate_spec m hm mover hmv hInv e.point e.isNewRound st
    unfold executeLoop
    simp only [heq, Bind.bind, Except.bind]
    cases mv with
    | none =>
      obtain ⟨nm, b2, heq2, hInv2, hsum2, hcount2⟩ := ih b1 hInv1 st1 moves early
      refine ⟨nm, b2, heq2, hInv2, by rw [hsum2, hsum1], ?_⟩
      rw [hcount2, hcount1]
      simp [mergedFlag]
    | some x =>
      cases early with
      | true =>
        refine ⟨[(e.point, x)], b1, by simp [pure, Except.pure], hInv1, hsum1, ?_⟩
        rw [hcount1, mergedCount_cons]
        simp [mergedCount]
      | false =>
        obtain ⟨nm, b2, heq2, hInv2, hsum2, hcount2⟩ :=
          ih b1 hInv1 st1 (moves ++ [(e.point, x)]) false
        refine ⟨(e.point, x) :: nm, b2, ?_, hInv2, by rw [hsum2, hsum1], ?_⟩
        · simp [heq2]
        · rw [hcount2, hcount1, mergedCount_cons]
          ring

/-- Specification of a full (non-early) strategy execution with a merger
whose merged value is the sum of the two source values. -/
theorem execute_spec (m : BlockMerger)
    (hm : ∀ x y : Block, (m.merge x y).value = x.value + y.value)
    (d : Direction) {board : Board} (hInv : board.Invariant) (early : Bool) :
    ∃ moves b', execute m d board early = .ok (moves, b') ∧ b'.Invariant ∧
      b'.sumValues = board.sumValues ∧
      b'.blockCount = board.blockCount - (mergedCount moves : Int) := by
  obtain ⟨nm, b2, heq, hInv2, hsum2, hcount2⟩ :=
    executeLoop_spec m hm d.mover (fun o ho q => mover_ne d q o ho)
      (d.traverse board.rowCount board.columnCount) board hInv operationPrepare [] early
  exact ⟨nm, b2, by simpa [execute] using heq, hInv2, hsum2, hcount2⟩

/-! ### Empty-board lemmas -/

/-- Every cell of a freshly constructed board reads empty. -/
theorem getBlock_new (rowCount columnCount : Nat) (row column : Int) :
    (Board.new rowCount columnCount).getBlock row column = none := by
  unfold Board.new Board.getBlock
  dsimp only
  split
  · rfl
  · rw [List.getElem?_replicate]
    split <;> simp [Option.join]

/-- On a board all of whose cells read empty, `operate` produces no move
and leaves the board unchanged. -/
theorem operate_empty (m : BlockMerger) (mover : Point → Int → Point)
    {board : Board} (hempty : ∀ row column : Int, board.getBlock row column = none)
    (p : Point) (isNewRound : Bool) (st : OperationState) :
    ∃ st', operate m mover board p isNewRound st = .ok (none, board, st') := by
  unfold operate
  cases hin : board.isWithinBound p.row p.column with
  | false =>
    exact ⟨(if isNewRound then { emptyCount := 0, isDstMerged := false } else st),
      by simp [hin, pure, Except.pure]⟩
  | true =>
    refine ⟨{ (if isNewRound then { emptyCount := 0, isDstMerged := false } else st :
        OperationState) with
      emptyCount := (if isNewRound then
        ({ emptyCount := 0, isDstMerged := false } : OperationState) else st).emptyCount + 1 },
      ?_⟩
    simp only [hin, Bool.not_true, Bool.false_eq_true, if_false,
      blockAt_of_inBounds hin, Bind.bind, Except.bind, hempty p.row p.column]
    rfl

/-- On a board all of whose cells read empty, the traversal loop collects
nothing and leaves the board unchanged. -/
theorem executeLoop_empty (m : BlockMerger) (mover : Point → Int → Point)
    (entries : List BoardTraversalEntry) {board : Board}
    (hempty : ∀ row column : Int, board.getBlock row column = none) :
    ∀ (st : OperationState) (moves : List (Point × BlockMove)) (early : Bool),
      executeLoop m mover entries board st moves early = .ok (moves, board) := by
  induction entries with
  | nil => intro st moves early; rfl
  | cons e rest ih =>
    intro st moves early
    obtain ⟨st', heq⟩ := operate_empty m mover hempty e.point e.isNewRound st
    unfold executeLoop
    simp only [heq, Bind.bind, Except.bind]
    exact ih st' moves early

/-- `moveBlocks` on a freshly constructed (fully empty) board of any size
produces an empty move map and leaves the board unchanged. -/
theorem moveBlocks_empty (rowCount columnCount : Nat) (d : Direction) :
    Game.moveBlocks ⟨Board.new rowCount columnCount⟩ d =
      .ok ([], ⟨Board.new rowCount columnCount⟩) := by
  unfold Game.moveBlocks execute
  rw [executeLoop_empty _ _ _ (getBlock_new rowCount columnCount)]
  rfl

/-! ### `fromJson` lemmas -/

/-- Two boards with equal fields are equal. -/
theorem Board.eq_of_fields {b1 b2 : Board} (h1 : b1.rowCount = b2.rowCount)
    (h2 : b1.columnCount = b2.columnCount) (h3 : b1.blocks = b2.blocks)
    (h4 : b1.blockCount = b2.blockCount) : b1 = b2 := by
  cases b1
  cases b2
  simp_all

/-- Characterisation of the `fromJson` loop after `m` iterations: the
dimensions are those of the record, cells below `m` hold the decoded
values, cells from `m` on are still empty, and `#blockCount` counts the
occupied cells. -/
theorem fromJson_fold (values : List (Option Int)) (rowCount columnCount : Nat) :
    ∀ m, m ≤ rowCount * columnCount →
      ((List.range m).foldl (fromJsonStep values)
          (Board.new rowCount columnCount)).rowCount = rowCount ∧
      ((List.range m).foldl (fromJsonStep values)
          (Board.new rowCount columnCount)).columnCount = columnCount ∧
      ((List.range m).foldl (fromJsonStep values)
          (Board.new rowCount columnCount)).blocks.length = rowCount * columnCount ∧
      (∀ j, j < rowCount * columnCount →
        ((List.range m).foldl (fromJsonStep values)
          (Board.new rowCount columnCount)).blocks[j]? =
            some (if j < m then decodeCell values j else none)) ∧
      ((List.range m).foldl (fromJsonStep values)
          (Board.new rowCount columnCount)).blockCount =
        (countBlocks ((List.range m).foldl (fromJsonStep values)
          (Board.new rowCount columnCount)).blocks : Int) := by
  intro m
  induction m with
  | zero =>
    intro _
    refine ⟨rfl, rfl, by simp [Board.new], ?_, ?_⟩
    · intro j hj
      simp [Board.new, List.getElem?_replicate, hj]
    · simp [Board.new, countBlocks, List.filter_replicate, Option.isSome]
  | succ m ih =>
    intro hm
    obtain ⟨hr, hc, hlen, hcells, hcount⟩ := ih (by omega)
    rw [List.range_succ, List.foldl_append]
    set F := (List.range m).foldl (fromJsonStep values) (Board.new rowCount columnCount)
      with hF
    have hstep : List.foldl (fromJsonStep values) F [m] = fromJsonStep values F m := rfl
    rw [hstep]
    have hmlt : m < rowCount * columnCount := by omega
    have hFm : F.blocks[m]? = some none := by
      have := hcells m hmlt
      simpa using this
    rcases hv : values[m]? with _ | cv
    · -- absent entry: skipped
      have hid : fromJsonStep values F m = F := by
        unfold fromJsonStep
        rw [hv]
      rw [hid]
      refine ⟨hr, hc, hlen, ?_, hcount⟩
      intro j hj
      rw [hcells j hj]
      by_cases hjm : j < m
      · simp [hjm, (by omega : j < m + 1)]
      · by_cases hjm1 : j < m + 1
        · have : j = m := by omega
          subst this
          simp [hjm1, decodeCell, hv]
        · simp [hjm, hjm1]
    · rcases cv with _ | v
      · -- null entry: skipped
        have hid : fromJsonStep values F m = F := by
          unfold fromJsonStep
          rw [hv]
        rw [hid]
        refine ⟨hr, hc, hlen, ?_, hcount⟩
        intro j hj
        rw [hcells j hj]
        by_cases hjm : j < m
        · simp [hjm, (by omega : j < m + 1)]
        · by_cases hjm1 : j < m + 1
          · have : j = m := by omega
            subst this
            simp [hjm1, decodeCell, hv]
          · simp [hjm, hjm1]
      · -- numeric entry: written and counted
        have hset : fromJsonStep values F m =
            { F with blocks := F.blocks.set m (some (Block.of v))
                     blockCount := F.blockCount + 1 } := by
          unfold fromJsonStep
          rw [hv]
        rw [hset]
        refine ⟨hr, hc, by simpa using hlen, ?_, ?_⟩
        · intro j hj
          by_cases hjm : j = m
          · subst hjm
            rw [List.getElem?_set_self (by omega)]
            simp [(by omega : j < j + 1), decodeCell, hv]
          · show (F.blocks.set m (some (Block.of v)))[j]? = _
            rw [List.getElem?_set_ne (Ne.symm hjm), hcells j hj]
            by_cases hjm' : j < m
            · simp [hjm', (by omega : j < m + 1)]
            · rw [if_neg hjm', if_neg (by omega : ¬(j < m + 1))]
        · show F.blockCount + 1 =
            (countBlocks (F.blocks.set m (some (Block.of v))) : Int)
          rw [countBlocks_set F.blocks m (some (Block.of v)) none hFm, ← hcount]
          simp [blockIndicator]

/-- Characterisation of `Board.fromJson`: it never rejects; the result has
the record's dimensions, its cells decode `values` entry-wise (missing or
non-numeric entries give empty cells, extra entries are ignored), and
`#blockCount` counts the decoded blocks. -/
theorem fromJson_spec (data : BoardJson) :
    (Board.fromJson data).rowCount = data.rowCount ∧
    (Board.fromJson data).columnCount = data.columnCount ∧
    (Board.fromJson data).blocks =
      (List.range (data.rowCount * data.columnCount)).map (decodeCell data.values) ∧
    (Board.fromJson data).blockCount =
      (countBlocks (Board.fromJson data).blocks : Int) := by
  obtain ⟨hr, hc, hlen, hcells, hcount⟩ :=
    fromJson_fold data.values data.rowCount data.columnCount
      (data.rowCount * data.columnCount) le_rfl
  refine ⟨hr, hc, ?_, hcount⟩
  unfold Board.fromJson
  apply List.ext_getElem?
  intro j
  rw [List.getElem?_map]
  by_cases hj : j < data.rowCount * data.columnCount
  · rw [hcells j hj, List.getElem?_range hj]
    simp [hj]
  · rw [List.getElem?_eq_none (by rw [hlen]; omega),
      List.getElem?_eq_none (by rw [List.length_range]; omega)]
    rfl

/-- Every board satisfying the representation invariant is reproduced
exactly by `fromJson ∘ toJson`. -/
theorem fromJson_toJson {b : Board} (hInv : b.Invariant) :
    Board.fromJson b.toJson = b := by
  obtain ⟨hlen, hcount⟩ := hInv
  obtain ⟨hr, hc, hblocks, hbc⟩ := fromJson_spec b.toJson
  have hJr : b.toJson.rowCount = b.rowCount := rfl
  have hJc : b.toJson.columnCount = b.columnCount := rfl
  have hJv : b.toJson.values = b.blocks.map (fun block => block.map Block.value) := rfl
  rw [hJr] at hr
  rw [hJc] at hc
  rw [hJr, hJc, hJv] at hblocks
  have hbl : (Board.fromJson b.toJson).blocks = b.blocks := by
    rw [hblocks]
    apply List.ext_getElem?
    intro j
    rw [List.getElem?_map]
    by_cases hj : j < b.rowCount * b.columnCount
    · rw [List.getElem?_range hj]
      obtain ⟨cell, hcell⟩ : ∃ c, b.blocks[j]? = some c :=
        ⟨_, List.getElem?_eq_getElem (by rw [hlen]; exact hj)⟩
      rw [hcell]
      simp only [Option.map_some', Option.some.injEq]
      unfold decodeCell
      rw [List.getElem?_map, hcell]
      cases cell with
      | none => rfl
      | some blk => cases blk; rfl
    · rw [List.getElem?_eq_none (by rw [List.length_range]; omega),
        List.getElem?_eq_none (by rw [hlen]; omega)]
      rfl
  refine Board.eq_of_fields hr hc hbl ?_
  rw [hbc, hbl, hcount]

/-- Every board reachable through the `Board` API satisfies the
representation invariant. -/
theorem reachable_invariant {b : Board} (h : Board.Reachable b) : b.Invariant := by
  induction h with
  | new rowCount columnCount =>
    constructor
    · simp [Board.new]
    · simp [Board.new, countBlocks, List.filter_replicate]
  | set row column block _ hset ih =>
    exact (setBlockAt_ok_spec ih hset).1
  | remove row column _ hset ih =>
    exact (setBlockAt_ok_spec ih hset).1
  | clear _ ih =>
    constructor
    · simp [Board.clear, ih.1]
    · simp [Board.clear, countBlocks, List.filter_map, Function.comp,
        Option.isSome, List.filter_false]
  | fromJson data =>
    obtain ⟨hr, hc, hblocks, hcount⟩ := fromJson_spec data
    exact ⟨by rw [hblocks, hr, hc]; simp, hcount⟩
  | copy _ ih =>
    exact ih

/-! ### Grid-enumeration lemmas -/

/-- `countBlocks` distributes over append. -/
theorem countBlocks_append (l1 l2 : List (Option Block)) :
    countBlocks (l1 ++ l2) = countBlocks l1 + countBlocks l2 := by
  simp [countBlocks, List.filter_append]

/-- A `filterMap` guarded by an `if` keeps as many elements as the
corresponding `filter`. -/
theorem length_filterMap_if {α β : Type} (p : α → Bool) (f : α → β) (l : List α) :
    (l.filterMap (fun x => if p x then some (f x) else none)).length =
      (l.filter p).length := by
  induction l with
  | nil => rfl
  | cons a l ih =>
    cases hp : p a <;> simp [List.filterMap_cons, List.filter_cons, hp, ih]

/-- Counting occupied cells over an index prefix equals counting in the
`take` prefix of the cell array. -/
theorem count_prefix (l : List (Option Block)) :
    ∀ cc : Nat, cc ≤ l.length →
      ((List.range cc).filter (fun j => ((l[j]?).join).isSome)).length =
        countBlocks (l.take cc) := by
  intro cc
  induction cc with
  | zero => intro _; rfl
  | succ cc ih =>
    intro hcc
    rw [List.range_succ, List.filter_append, List.length_append, ih (by omega),
      List.take_succ, countBlocks_append]
    obtain ⟨cell, hcell⟩ : ∃ c, l[cc]? = some c :=
      ⟨_, List.getElem?_eq_getElem (by omega)⟩
    rw [hcell]
    cases cell <;>
      simp [countBlocks, List.filter_cons, hcell, Option.toList, Option.join]

/-- Summing per-row occupied counts over all rows counts the whole
row-major cell array. -/
theorem sum_row_counts (cc : Nat) :
    ∀ (rc : Nat) (l : List (Option Block)), l.length = rc * cc →
      ((List.range rc).map (fun i =>
        ((List.range cc).filter (fun j => ((l[i * cc + j]?).join).isSome)).length)).sum
      = countBlocks l := by
  intro rc
  induction rc with
  | zero =>
    intro l hlen
    obtain rfl := List.length_eq_zero.mp (by simpa using hlen)
    rfl
  | succ rc ih =>
    intro l hlen
    have hlen' : l.length = cc + rc * cc := by rw [hlen]; ring
    rw [List.range_succ_eq_map, List.map_cons, List.sum_cons, List.map_map]
    have hhead : ((List.range cc).filter
        (fun j => ((l[0 * cc + j]?).join).isSome)).length = countBlocks (l.take cc) := by
      rw [show (fun j => ((l[0 * cc + j]?).join).isSome) =
          (fun j => ((l[j]?).join).isSome) from funext (fun j => by norm_num)]
      exact count_prefix l cc (by omega)
    have htail : List.map ((fun i =>
        ((List.range cc).filter (fun j => ((l[i * cc + j]?).join).isSome)).length) ∘
          Nat.succ) (List.range rc)
      = List.map (fun i => ((List.range cc).filter
          (fun j => (((l.drop cc)[i * cc + j]?).join).isSome)).length) (List.range rc) := by
      apply List.map_congr_left
      intro i _
      simp only [Function.comp]
      congr 1
      apply List.filter_congr
      intro j _
      have hidx : Nat.succ i * cc + j = cc + (i * cc + j) := by
        rw [Nat.succ_eq_add_one]
        ring
      rw [hidx, ← List.getElem?_drop]
    rw [hhead, htail, ih (l.drop cc) (by rw [List.length_drop, hlen']; omega)]
    conv_rhs => rw [← List.take_append_drop cc l]
    rw [countBlocks_append]

/-- `#getBlock` at natural-number coordinates reads the row-major entry. -/
theorem getBlock_natCast (b : Board) (i j : Nat) :
    b.getBlock (i : Int) (j : Int) = (b.blocks[i * b.columnCount + j]?).join := by
  unfold Board.getBlock Board.computeIndex
  dsimp only
  rw [if_neg (not_lt.mpr (by positivity))]
  have hidx : ((i : Int) * (b.columnCount : Int) + (j : Int)).toNat =
      i * b.columnCount + j := by
    rw [show ((i : Int) * (b.columnCount : Int) + (j : Int)) =
        ((i * b.columnCount + j : Nat) : Int) from by push_cast; ring]
    exact Int.toNat_natCast _
  rw [hidx]

/-- Under the length invariant, the row-major enumeration of occupied
slots finds exactly `countBlocks` coordinates. -/
theorem getOccupiedSlots_length {b : Board}
    (hlen : b.blocks.length = b.rowCount * b.columnCount) :
    b.getOccupiedSlots.length = countBlocks b.blocks := by
  unfold Board.getOccupiedSlots
  rw [List.length_flatMap]
  rw [show List.map (List.length ∘ fun (i : Nat) =>
      (List.range b.columnCount).filterMap (fun (j : Nat) =>
        if (b.getBlock (i : Int) (j : Int)).isSome then
          some (Point.of (i : Int) (j : Int))
        else none))
      (List.range b.rowCount)
    = List.map (fun i => ((List.range b.columnCount).filter
        (fun j => ((b.blocks[i * b.columnCount + j]?).join).isSome)).length)
      (List.range b.rowCount) from ?_]
  · exact sum_row_counts b.columnCount b.rowCount b.blocks hlen
  · apply List.map_congr_left
    intro i _
    simp only [Function.comp]
    rw [length_filterMap_if]
    have hcong : (fun (j : Nat) => (b.getBlock (i : Int) (j : Int)).isSome)
        = (fun (j : Nat) => (b.blocks[i * b.columnCount + j]?.join).isSome) := by
      funext j
      rw [getBlock_natCast]
    rw [hcong]

/-- Membership in `getEmptySlots` means an in-bounds, empty coordinate. -/
theorem mem_getEmptySlots {b : Board} {p : Point} (h : p ∈ b.getEmptySlots) :
    b.isWithinBound p.row p.column = true ∧ b.getBlock p.row p.column = none := by
  unfold Board.getEmptySlots at h
  rw [List.mem_flatMap] at h
  obtain ⟨i, hi, hmem⟩ := h
  rw [List.mem_filterMap] at hmem
  obtain ⟨j, hj, hcell⟩ := hmem
  rw [List.mem_range] at hi
  rw [List.mem_range] at hj
  by_cases hc : (b.getBlock (i : Int) (j : Int)).isNone
  · rw [if_pos hc, Option.some.injEq] at hcell
    subst hcell
    refine ⟨?_, Option.isNone_iff_eq_none.mp hc⟩
    rw [isWithinBound_iff]
    dsimp only [Point.of]
    exact ⟨by positivity, by exact_mod_cast hi, by positivity, by exact_mod_cast hj⟩
  · rw [if_neg hc] at hcell
    exact absurd hcell (by simp)

/-! ### Claim theorems -/

/-- Claim C1, counterexample: on the 1×4 row `[2,2,2,2]`,
`Game.moveBlocks(LEFT)` returns a move map with three records, of which
only two have `merged = true` — not "exactly two records, both with
`merged = true`" as claimed (the relocation `(0,2)→(0,1)` is also
recorded, with `merged = false`). -/
theorem c1_counterexample :
    (Game.moveBlocks ⟨row2222⟩ Direction.left).map
        (fun r => (r.1.length, mergedCount r.1)) = Except.ok (3, 2) := by
  decide

/-- Claim C1, amended: on the 1×4 row `[2,2,2,2]`, `Game.moveBlocks(LEFT)`
leaves the row as `[4,4,_,_]`; the returned move map contains exactly three
records — `(0,1)→(0,0)` with `merged = true`, `(0,2)→(0,1)` with
`merged = false` and `(0,3)→(0,1)` with `merged = true` — so exactly two of
them have `merged = true`, and no destination cell absorbs more than one
merge during the move (the two merge destinations `(0,0)` and `(0,1)` are
distinct). -/
theorem c1_single_merge_per_stack :
    Game.moveBlocks ⟨row2222⟩ Direction.left =
      Except.ok (row2222Moves,
        ⟨{ rowCount := 1, columnCount := 4
           blocks := [some (Block.of 4), some (Block.of 4), none, none]
           blockCount := 2 }⟩) ∧
    row2222Moves.length = 3 ∧
    mergedCount row2222Moves = 2 ∧
    ((row2222Moves.filter (fun m => m.2.merged)).map (fun m => m.2.toPoint)).Nodup := by
  decide

/-- Claim C2: on the 1×4 row `[2,_,4,_]`, `Game.moveBlocks(LEFT)` yields
`[2,4,_,_]` with exactly one move record `(0,2)→(0,1)`, `merged = false`,
and no record keyed by `(0,0)`; and on `[2,4,4,_]`, `Game.moveBlocks(LEFT)`
yields `[2,8,_,_]` — a tile never passes over a non-mergeable occupied tile
ahead of it even when empty cells lie beyond it. -/
theorem c2_slide_and_stack :
    Game.moveBlocks ⟨row2x4x⟩ Direction.left =
      Except.ok ([(Point.of 0 2,
          { fromPoint := Point.of 0 2, toPoint := Point.of 0 1, merged := false })],
        ⟨{ rowCount := 1, columnCount := 4
           blocks := [some (Block.of 2), some (Block.of 4), none, none]
           blockCount := 2 }⟩) ∧
    ([(Point.of 0 2,
        ({ fromPoint := Point.of 0 2, toPoint := Point.of 0 1, merged := false } :
          BlockMove))].filter (fun m => m.1 == Point.of 0 0)) = [] ∧
    Game.moveBlocks ⟨row244x⟩ Direction.left =
      Except.ok ([(Point.of 0 2,
          { fromPoint := Point.of 0 2, toPoint := Point.of 0 1, merged := true })],
        ⟨{ rowCount := 1, columnCount := 4
           blocks := [some (Block.of 2), some (Block.of 8), none, none]
           blockCount := 2 }⟩) := by
  decide

/-- Claim C3: for every board state and direction, `Game.tryMoveBlocks`
leaves the live board unchanged — the `toJson` encoding of the game's board
is the same before and after the call (the traversal runs only on
`Board.copy` of the board; the game's board field is untouched). -/
theorem c3_tryMoveBlocks_pure (g : Game) (d : Direction) (result : Bool × Game)
    (hrun : g.tryMoveBlocks d = .ok result) :
    result.2.board.toJson = g.board.toJson := by
  unfold Game.tryMoveBlocks at hrun
  dsimp only at hrun
  cases hex : execute IdenticalBlockMerger d (Board.copy g.board) true with
  | error e =>
    rw [hex] at hrun
    exact absurd hrun (by simp [Bind.bind, Except.bind])
  | ok mb =>
    rw [hex] at hrun
    simp only [Bind.bind, Except.bind, pure, Except.pure, Except.ok.injEq] at hrun
    rw [← hrun]

/-- Claim C3, witness: a concrete run on the 1×4 row `[2,2,2,2]`. -/
theorem c3_tryMoveBlocks_pure_witness :
    ((⟨row2222⟩ : Game).tryMoveBlocks Direction.left = .ok (true, ⟨row2222⟩)) ∧
      ((true, (⟨row2222⟩ : Game)) : Bool × Game).2.board.toJson =
        (⟨row2222⟩ : Game).board.toJson :=
  ⟨by decide, c3_tryMoveBlocks_pure ⟨row2222⟩ Direction.left (true, ⟨row2222⟩) (by decide)⟩

/-- Claim C7, counterexample: on the 1×4 row `[2,_,_,4]`,
`Game.moveBlocks(RIGHT)` does not produce an empty move map: the tile `2`
at `(0,0)` is not packed against the right edge, so it slides to `(0,2)`
and one record `(0,0)→(0,2)` with `merged = false` is produced. -/
theorem c7_counterexample :
    Game.moveBlocks ⟨row2xx4⟩ Direction.right =
      Except.ok ([(Point.of 0 0,
          { fromPoint := Point.of 0 0, toPoint := Point.of 0 2, merged := false })],
        ⟨{ rowCount := 1, columnCount := 4
           blocks := [none, none, some (Block.of 2), some (Block.of 4)]
           blockCount := 2 }⟩) ∧
    (Game.moveBlocks ⟨row2xx4⟩ Direction.right).map (fun r => r.1.length) ≠
      Except.ok 0 := by
  decide

/-- Claim C7, amended: sliding the 1×4 row `[2,_,_,4]` RIGHT produces a
move map with exactly one record, `(0,0)→(0,2)` with `merged = false`
(the `2` slides up against the `4`); a row already packed against the right
edge, `[_,_,2,4]`, produces an empty move map when slid RIGHT; and sliding
a fully empty board of any size in any of the four directions produces an
empty move map and leaves the board unchanged. -/
theorem c7_noop_detection :
    Game.moveBlocks ⟨row2xx4⟩ Direction.right =
      Except.ok ([(Point.of 0 0,
          { fromPoint := Point.of 0 0, toPoint := Point.of 0 2, merged := false })],
        ⟨rowxx24⟩) ∧
    Game.moveBlocks ⟨rowxx24⟩ Direction.right = Except.ok ([], ⟨rowxx24⟩) ∧
    ∀ (rowCount columnCount : Nat) (d : Direction),
      Game.moveBlocks ⟨Board.new rowCount columnCount⟩ d =
        .ok ([], ⟨Board.new rowCount columnCount⟩) :=
  ⟨by decide, by decide, fun rowCount columnCount d => moveBlocks_empty rowCount columnCount d⟩

/-- Claim C8: on every board whose cell array matches its dimensions (with
at least one row and column), `blockAt` and `setBlockAt` throw exactly on
out-of-bounds coordinates, and for in-bounds coordinates the accessed
storage index is in range and both operations succeed. -/
theorem c8_bounds_safety (b : Board)
    (hlen : b.blocks.length = b.rowCount * b.columnCount)
    (_hr : 1 ≤ b.rowCount) (_hc : 1 ≤ b.columnCount)
    (row column : Int) (block : Option Block) :
    ((row < 0 ∨ (b.rowCount : Int) ≤ row ∨ column < 0 ∨ (b.columnCount : Int) ≤ column) →
        b.blockAt row column = .error () ∧ b.setBlockAt row column block = .error ()) ∧
    ((0 ≤ row ∧ row < (b.rowCount : Int) ∧ 0 ≤ column ∧ column < (b.columnCount : Int)) →
        (b.computeIndex row column).toNat < b.blocks.length ∧
        b.blockAt row column = .ok (b.getBlock row column) ∧
        ∃ b', b.setBlockAt row column block = .ok b') := by
  constructor
  · intro hoob
    have hfalse : b.isWithinBound row column = false := by
      cases hw : b.isWithinBound row column with
      | false => rfl
      | true => rw [isWithinBound_iff] at hw; omega
    exact ⟨blockAt_of_oob hfalse, setBlockAt_of_oob block hfalse⟩
  · intro hib
    have htrue : b.isWithinBound row column = true := isWithinBound_iff.mpr hib
    exact ⟨toNat_index_lt hlen htrue, blockAt_of_inBounds htrue,
      ⟨_, setBlockAt_of_inBounds block htrue⟩⟩

/-- Claim C8, witness: on the 1×4 row `[2,2,2,2]`, the out-of-bounds read
`(0,5)` throws and the in-bounds read `(0,2)` succeeds. -/
theorem c8_bounds_safety_witness :
    (row2222.blockAt 0 5 = .error () ∧ row2222.setBlockAt 0 5 none = .error ()) ∧
      row2222.blockAt 0 2 = .ok (row2222.getBlock 0 2) :=
  ⟨(c8_bounds_safety row2222 (by decide) (by decide) (by decide) 0 5 none).1
      (by right; right; right; decide),
    ((c8_bounds_safety row2222 (by decide) (by decide) (by decide) 0 2 none).2
      (by refine ⟨by decide, by decide, by decide, by decide⟩)).2.1⟩

/-- Claim C4: for every sequence of `Board` operations (`setBlockAt`,
`removeBlockAt`, `clear`, `fromJson`, `copy`) starting from a freshly
constructed board, `getBlockCount()` equals the number of cells holding a
block found by full enumeration of the grid — both as the count of
occupied entries of the dense cell array and as the length of the
row-major `getOccupiedSlots()` enumeration. -/
theorem c4_occupancy_invariant (b : Board) (h : Board.Reachable b) :
    b.blockCount = (countBlocks b.blocks : Int) ∧
    b.blockCount = (b.getOccupiedSlots.length : Int) := by
  have hInv := reachable_invariant h
  refine ⟨hInv.2, ?_⟩
  rw [hInv.2, getOccupiedSlots_length hInv.1]

/-- Claim C4, witness: the board obtained from a fresh 1×1 board by one
`setBlockAt`. -/
theorem c4_occupancy_invariant_witness :
    oneCell.blockCount = (countBlocks oneCell.blocks : Int) ∧
      oneCell.blockCount = (oneCell.getOccupiedSlots.length : Int) :=
  c4_occupancy_invariant oneCell
    (Board.Reachable.set 0 0 (some (Block.of 2)) (Board.Reachable.new 1 1) (by decide))

/-- Claim C5: decoding a board's own encoding reproduces it exactly: for
every board satisfying the representation invariant, `fromJson(toJson())`
has the same `rowCount`, `columnCount` and block count, and the same block
(or emptiness) at every coordinate. -/
theorem c5_roundtrip (b : Board) (hInv : b.Invariant) :
    (Board.fromJson b.toJson).rowCount = b.rowCount ∧
    (Board.fromJson b.toJson).columnCount = b.columnCount ∧
    (Board.fromJson b.toJson).blockCount = b.blockCount ∧
    ∀ row column : Int,
      (Board.fromJson b.toJson).blockAt row column = b.blockAt row column := by
  rw [fromJson_toJson hInv]
  exact ⟨rfl, rfl, rfl, fun _ _ => rfl⟩

/-- Claim C5, witness: round-trip of the 1×4 row `[2,_,4,_]` at coordinate
`(0, 2)`. -/
theorem c5_roundtrip_witness :
    (Board.fromJson row2x4x.toJson).rowCount = row2x4x.rowCount ∧
      (Board.fromJson row2x4x.toJson).blockAt 0 2 = row2x4x.blockAt 0 2 :=
  ⟨(c5_roundtrip row2x4x (by decide)).1,
    (c5_roundtrip row2x4x (by decide)).2.2.2 0 2⟩

/-- Claim C6, counterexample: `Board.fromJson` does not fail on a record
whose `values` array has the wrong length: decoding `{rowCount: 1,
columnCount: 2, values: []}` (length 0 ≠ 2) silently constructs an ordinary
empty 1×2 board, indistinguishable from decoding the well-formed record
`{rowCount: 1, columnCount: 2, values: [null, null]}`. -/
theorem c6_counterexample :
    Board.fromJson { rowCount := 1, columnCount := 2, values := [] } =
      { rowCount := 1, columnCount := 2, blocks := [none, none], blockCount := 0 } ∧
    Board.fromJson { rowCount := 1, columnCount := 2, values := [] } =
      Board.fromJson { rowCount := 1, columnCount := 2, values := [none, none] } := by
  decide

/-- Claim C6, amended: `Board.fromJson` performs no validation of the
`values` length: for every decoded record it silently constructs a board
with the record's `rowCount` and `columnCount` and exactly
`rowCount*columnCount` cells, decoding each cell from the corresponding
`values` entry (missing or non-numeric entries give empty cells, extra
entries are ignored) and counting the decoded blocks in `blockCount`. -/
theorem c6_fromJson_silent (data : BoardJson) :
    (Board.fromJson data).rowCount = data.rowCount ∧
    (Board.fromJson data).columnCount = data.columnCount ∧
    (Board.fromJson data).blocks =
      (List.range (data.rowCount * data.columnCount)).map (decodeCell data.values) ∧
    (Board.fromJson data).blockCount =
      (countBlocks (Board.fromJson data).blocks : Int) :=
  fromJson_spec data

/-- Claim C9: `spawnBlock` on a board with no empty cell returns an absent
result and changes nothing; on a board with at least one empty slot and a
non-null block (for any admissible random draw `r`), it writes that block
to a previously-empty coordinate and returns that coordinate. -/
theorem c9_spawn_behaviour (g : Game) (hInv : g.board.Invariant)
    (blockArg : Option Block) (r : Nat) :
    ((∀ cell ∈ g.board.blocks, cell.isSome) →
        g.spawnBlock blockArg r = .ok (none, g)) ∧
    (∀ blk : Block, blockArg = some blk → g.board.getEmptySlots ≠ [] →
        r < g.board.getEmptySlots.length →
      ∃ slot g', g.spawnBlock blockArg r = .ok (some slot, g') ∧
        g.board.blockAt slot.row slot.column = .ok none ∧
        g.board.setBlockAt slot.row slot.column (some blk) = .ok g'.board) := by
  obtain ⟨hlen, hcount⟩ := hInv
  constructor
  · intro hfull
    have hcb : countBlocks g.board.blocks = g.board.blocks.length := by
      unfold countBlocks
      rw [List.filter_eq_self.mpr hfull]
    have hspawn : g.isSpawnable = false := by
      unfold Game.isSpawnable Board.getSize
      rw [hcount, hcb, hlen]
      simp
    unfold Game.spawnBlock
    rw [hspawn]
    simp [pure, Except.pure]
  · intro blk hblk hne hr
    have hspawnable : g.isSpawnable = true := by
      obtain ⟨q, hq⟩ := List.exists_mem_of_ne_nil _ hne
      obtain ⟨hqin, hqnone⟩ := mem_getEmptySlots hq
      have hqget := getElem?_of_inBounds hlen hqin
      rw [hqnone] at hqget
      have hmem : (none : Option Block) ∈ g.board.blocks := List.getElem?_mem hqget
      have hlt : countBlocks g.board.blocks < g.board.blocks.length :=
        List.length_filter_lt_length_iff_exists.mpr ⟨none, hmem, by simp⟩
      unfold Game.isSpawnable Board.getSize
      simp only [bne_iff_ne, ne_eq]
      rw [hcount, ← hlen]
      intro hEq
      have : countBlocks g.board.blocks = g.board.blocks.length := by exact_mod_cast hEq
      omega
    have hlen0 : ¬(g.board.getEmptySlots.length = 0) := by
      intro h0
      exact hne (List.length_eq_zero.mp h0)
    have hrand : randomItem g.board.getEmptySlots r =
        some (g.board.getEmptySlots[r]) := by
      unfold randomItem
      rw [if_neg hlen0, List.getElem?_eq_getElem hr]
    have hslotmem : g.board.getEmptySlots[r] ∈ g.board.getEmptySlots :=
      List.getElem_mem hr
    obtain ⟨hin, hnone⟩ := mem_getEmptySlots hslotmem
    have hset := setBlockAt_of_inBounds (b := g.board) (some blk) hin
    refine ⟨g.board.getEmptySlots[r],
      ⟨{ g.board with
          blocks := g.board.blocks.set
            ((g.board.computeIndex (g.board.getEmptySlots[r]).row
              (g.board.getEmptySlots[r]).column)).toNat (some blk)
          blockCount := g.board.blockCount + blockIndicator (some blk) -
            blockIndicator (g.board.getBlock (g.board.getEmptySlots[r]).row
              (g.board.getEmptySlots[r]).column) }⟩, ?_, ?_, ?_⟩
    · unfold Game.spawnBlock
      rw [hspawnable, hblk, hrand]
      simp only [Bool.not_true, Bool.false_or, Option.isNone_some, Bool.false_eq_true,
        if_false, Bind.bind, Except.bind]
      rw [hset]
      rfl
    · rw [blockAt_of_inBounds hin, hnone]
    · exact hset

/-- Claim C9, witness: spawning on the full 1×1 board is a no-op; spawning
a `2` on the 1×4 row `[2,_,4,_]` with draw `r = 0` writes it at `(0,1)`. -/
theorem c9_spawn_behaviour_witness :
    (Game.spawnBlock ⟨oneCell⟩ (some (Block.of 2)) 0 = .ok (none, ⟨oneCell⟩)) ∧
    (∃ slot g', Game.spawnBlock ⟨row2x4x⟩ (some (Block.of 2)) 0 = .ok (some slot, g') ∧
      (⟨row2x4x⟩ : Game).board.blockAt slot.row slot.column = .ok none ∧
      (⟨row2x4x⟩ : Game).board.setBlockAt slot.row slot.column (some (Block.of 2)) =
        .ok g'.board) :=
  ⟨(c9_spawn_behaviour ⟨oneCell⟩ (by decide) (some (Block.of 2)) 0).1 (by decide),
    (c9_spawn_behaviour ⟨row2x4x⟩ (by decide) (some (Block.of 2)) 0).2
      (Block.of 2) rfl (by decide) (by decide)⟩

/-- Claim C10: with the default `IdenticalBlockMerger`, `moveBlocks`
preserves the total of all block values for every invariant-satisfying
board state and direction, and the block count decreases by exactly the
number of `merged = true` records in the returned move map (merged records
remove one block each, non-merged records none). -/
theorem c10_conservation (g : Game) (d : Direction) (hInv : g.board.Invariant)
    (moves : List (Point × BlockMove)) (g' : Game)
    (hrun : g.moveBlocks d = .ok (moves, g')) :
    g'.board.sumValues = g.board.sumValues ∧
    g'.board.blockCount = g.board.blockCount - (mergedCount moves : Int) := by
  obtain ⟨mm, b2, heq, hInv2, hsum, hcount⟩ :=
    execute_spec IdenticalBlockMerger (fun x y => rfl) d hInv false
  unfold Game.moveBlocks at hrun
  rw [heq] at hrun
  simp only [Bind.bind, Except.bind, pure, Except.pure, Except.ok.injEq,
    Prod.mk.injEq] at hrun
  obtain ⟨rfl, hg⟩ := hrun
  rw [← hg]
  exact ⟨hsum, hcount⟩

/-- Claim C10, witness: on the 1×2 row `[2,2]` slid LEFT, the sum stays `4`
and the single merge drops the block count from `2` to `1`. -/
theorem c10_conservation_witness :
    (Game.mk { rowCount := 1, columnCount := 2
               blocks := [some (Block.of 4), none], blockCount := 1 }).board.sumValues =
        (Game.mk row22).board.sumValues ∧
    (Game.mk { rowCount := 1, columnCount := 2
               blocks := [some (Block.of 4), none], blockCount := 1 }).board.blockCount =
        (Game.mk row22).board.blockCount -
          (mergedCount [(Point.of 0 1,
            { fromPoint := Point.of 0 1, toPoint := Point.of 0 0, merged := true })] : Int) :=
  c10_conservation (Game.mk row22) Direction.left (by decide)
    [(Point.of 0 1, { fromPoint := Point.of 0 1, toPoint := Point.of 0 0, merged := true })]
    (Game.mk { rowCount := 1, columnCount := 2
               blocks := [some (Block.of 4), none], blockCount := 1 })
    (by decide)

end TFE
